import Mathlib

/-!
# Verification of the laymur particle system core

Shallow embedding of the simulation core of the `laymur-particle-system`
repository: the curve evaluator (`lerpArray`, `lerpColorArray`), the
per-particle lifecycle integrator (`stepParticle` / `updateParticle`),
the particle store (`spawnParticle`, `removeParticles`,
`updateInstanceAttributes`), the uniform-in-time emission scheduler
(`emitterRender`), and the range sampler used by the rectangle emitter
(`randFloat`, `resolveRange`).

Numbers are modelled as rationals (`ℚ`): the TypeScript source computes
with IEEE doubles, but every property below is about the algebraic
structure of the code (comparisons, floors, linear arithmetic), not
about rounding.  JavaScript array indexing out of bounds yields
`undefined` (hence `NaN` downstream); the embedding uses `List.getD`
with a default value, and theorems about curve evaluation are read on
inputs for which the source indices are in bounds.

The repository contains several draft variants of the same design.  The
embedding follows the variant the claims cite: the particle system with
pre-aging (`spawnParticle(options, elapsedTime)` and `updateParticle`,
the variant whose spawn options carry `lifeTime`), and the emission
scheduler of `src/Emitters/UIUniformInTimeEmitter.ts` that passes an
elapsed-time offset to `spawn`.  In that system variant the per-particle
scale is stored as a `Vector2` with equal components; it is modelled
here as the single scalar written into both components.
-/

/-- 2D vector, mirroring the `three` `Vector2` values stored on particles. -/
structure Vec2 where
  x : ℚ
  y : ℚ
deriving DecidableEq

/-- RGB color, mirroring the `three` `Color` values stored on particles. -/
structure Color where
  r : ℚ
  g : ℚ
  b : ℚ
deriving DecidableEq

/-- `MathUtils.lerp(x, y, t) = x + (y - x) * t` from three.js. -/
def lerp (x y t : ℚ) : ℚ := x + (y - x) * t

/-- `Vector2.addScaledVector(v, s)`: componentwise `this + v * s`. -/
def addScaledVector (u v : Vec2) (s : ℚ) : Vec2 :=
  ⟨u.x + v.x * s, u.y + v.y * s⟩

/-- `UIParticleSystem.lerpArray(factor, array)`: piecewise-linear
evaluation of a scalar curve.  `lastIndex = length - 1`,
`exactIndex = lastIndex * factor`, `floorIndex = Math.floor(exactIndex)`,
`ceilIndex = Math.min(floorIndex + 1, lastIndex)`, then
`lerp(array[floorIndex], array[ceilIndex], exactIndex - floorIndex)`. -/
def lerpArray (factor : ℚ) (array : List ℚ) : ℚ :=
  let lastIndex : ℤ := (array.length : ℤ) - 1
  let exactIndex : ℚ := (lastIndex : ℚ) * factor
  let floorIndex : ℤ := ⌊exactIndex⌋
  let ceilIndex : ℤ := min (floorIndex + 1) lastIndex
  lerp (array.getD floorIndex.toNat 0) (array.getD ceilIndex.toNat 0)
    (exactIndex - (floorIndex : ℚ))

/-- `UIParticleSystem.lerpColorArray(factor, array)`: the same index
computation as `lerpArray`, with the blend applied to each RGB channel. -/
def lerpColorArray (factor : ℚ) (array : List Color) : Color :=
  let lastIndex : ℤ := (array.length : ℤ) - 1
  let exactIndex : ℚ := (lastIndex : ℚ) * factor
  let floorIndex : ℤ := ⌊exactIndex⌋
  let ceilIndex : ℤ := min (floorIndex + 1) lastIndex
  let fromColor := array.getD floorIndex.toNat ⟨0, 0, 0⟩
  let toColor := array.getD ceilIndex.toNat ⟨0, 0, 0⟩
  ⟨lerp fromColor.r toColor.r (exactIndex - (floorIndex : ℚ)),
   lerp fromColor.g toColor.g (exactIndex - (floorIndex : ℚ)),
   lerp fromColor.b toColor.b (exactIndex - (floorIndex : ℚ))⟩

/-- Curve evaluation as the specification words it (spec section 4.2): a
single-point curve is constant; otherwise `exact = (n-1)·t`,
`lo = floor(exact)`, `hi = min(lo+1, n-1)`, `frac = exact - lo`, result
`lerp(curve[lo], curve[hi], frac)`.  Stated only to compare the
code-side `lerpArray` against the specification's wording. -/
def evaluateSpec (curve : List ℚ) (t : ℚ) : ℚ :=
  if curve.length = 1 then curve.getD 0 0
  else
    let exact : ℚ := ((curve.length : ℚ) - 1) * t
    let lo : ℤ := ⌊exact⌋
    let hi : ℤ := min (lo + 1) ((curve.length : ℤ) - 1)
    lerp (curve.getD lo.toNat 0) (curve.getD hi.toNat 0) (exact - (lo : ℚ))

/-- The spawn options accepted by `UIParticleSystem.spawnParticle`
(`UISystemSpawnOptions` of the pre-aging variant: `lifeTime` is the
lifetime in seconds). -/
structure UISystemSpawnOptions where
  lifeTime : ℚ
  position : Vec2
  rotation : ℚ
  velocity : Vec2
  angularVelocity : ℚ
  scaleOverTime : List ℚ
  colorOverTime : List Color
  opacityOverTime : List ℚ
deriving DecidableEq

/-- The internal `UIParticle` record: `lifeTime` is the age fraction in
`[0,1]`, `lifeTimeFactor` the reciprocal of the lifetime. -/
structure UIParticle where
  lifeTime : ℚ
  lifeTimeFactor : ℚ
  position : Vec2
  rotation : ℚ
  scale : ℚ
  scaleOverTime : List ℚ
  opacity : ℚ
  opacityOverTime : List ℚ
  color : Color
  colorOverTime : List Color
  velocity : Vec2
  angularVelocity : ℚ
deriving DecidableEq

/-- The particle literal built at the top of `spawnParticle`:
`lifeTime: 0`, `lifeTimeFactor: 1 / options.lifeTime`, initial scale,
opacity and color read from index 0 of the respective curves. -/
def mkParticle (options : UISystemSpawnOptions) : UIParticle where
  lifeTime := 0
  lifeTimeFactor := 1 / options.lifeTime
  position := options.position
  rotation := options.rotation
  scale := options.scaleOverTime.getD 0 0
  scaleOverTime := options.scaleOverTime
  opacity := options.opacityOverTime.getD 0 0
  opacityOverTime := options.opacityOverTime
  color := options.colorOverTime.getD 0 ⟨0, 0, 0⟩
  colorOverTime := options.colorOverTime
  velocity := options.velocity
  angularVelocity := options.angularVelocity

/-- The in-place mutation performed by `UIParticleSystem.updateParticle`:
age first (`lifeTime += lifeTimeFactor * deltaTime`); if the new age
exceeds 1 the method returns early (only the age was written), otherwise
velocity, position, rotation and the three curve-driven properties are
updated in this order. -/
def stepParticle (gravity : Vec2) (deltaTime : ℚ) (p : UIParticle) : UIParticle :=
  let lifeTime := p.lifeTime + p.lifeTimeFactor * deltaTime
  if 1 < lifeTime then { p with lifeTime := lifeTime }
  else
    let velocity := addScaledVector p.velocity gravity deltaTime
    let position := addScaledVector p.position velocity deltaTime
    let rotation := p.rotation + p.angularVelocity * deltaTime
    { p with
      lifeTime := lifeTime
      velocity := velocity
      position := position
      rotation := rotation
      scale := lerpArray lifeTime p.scaleOverTime
      opacity := lerpArray lifeTime p.opacityOverTime
      color := lerpColorArray lifeTime p.colorOverTime }

/-- `UIParticleSystem.updateParticle` as an `Option`-valued function:
`none` when the method returns `false` (the particle died: its new age
exceeds 1), `some` of the mutated particle when it returns `true`. -/
def updateParticle (gravity : Vec2) (p : UIParticle) (deltaTime : ℚ) :
    Option UIParticle :=
  let q := stepParticle gravity deltaTime p
  if 1 < q.lifeTime then none else some q

/-- Iterating `updateParticle` over a sequence of per-frame `deltaTime`
values (one `render` call per frame); `none` as soon as one step kills
the particle, mirroring its removal from the live set. -/
def advanceThrough (gravity : Vec2) (p : UIParticle) : List ℚ → Option UIParticle
  | [] => some p
  | dt :: rest =>
    match updateParticle gravity p dt with
    | some q => advanceThrough gravity q rest
    | none => none

/-- State of a `UIParticleSystem`: the capacity baked into the instanced
attributes at construction (`attributes["instanceTransform"].count`),
the gravity vector, and the live-particle array. -/
structure UIParticleSystemState where
  capacity : ℕ
  gravity : Vec2
  particles : List UIParticle
deriving DecidableEq

/-- `UIParticleSystem.spawnParticle(options, elapsedTime)`: silently
return when the live count has reached capacity; otherwise build the
particle, and push it if `elapsedTime === 0` or if pre-aging it through
`updateParticle` by `elapsedTime` leaves it alive. -/
def spawnParticle (sys : UIParticleSystemState) (options : UISystemSpawnOptions)
    (elapsedTime : ℚ) : UIParticleSystemState :=
  if sys.capacity ≤ sys.particles.length then sys
  else
    let particle := mkParticle options
    if elapsedTime = 0 then
      { sys with particles := sys.particles ++ [particle] }
    else
      match updateParticle sys.gravity particle elapsedTime with
      | some p => { sys with particles := sys.particles ++ [p] }
      | none => sys

/-- The death test driving dead-particle collection in `render`. -/
def isDeadAfterStep (p : UIParticle) : Bool := decide (1 < p.lifeTime)

/-- `UIParticleSystem.removeParticles`: for each particle of the removal
list, `indexOf` + `splice(index, 1)` on the live array, i.e. erase its
first occurrence. -/
def removeParticles (particles : List UIParticle) (toRemove : List UIParticle) :
    List UIParticle :=
  toRemove.foldl (fun acc q => acc.erase q) particles

/-- The particle phase of `UIParticleSystem.render`: every live particle
is stepped in place; the ones whose update returned `false` are
collected and then removed via `removeParticles`. -/
def systemRenderParticles (gravity : Vec2) (particles : List UIParticle)
    (deltaTime : ℚ) : List UIParticle :=
  let stepped := particles.map (stepParticle gravity deltaTime)
  removeParticles stepped (stepped.filter isDeadAfterStep)

/-- One instanced-attribute record: `instanceTransform` holds
`(position.x, position.y, rotation, scale)` and `instanceColor` holds
`(color.r, color.g, color.b, opacity)` as written by
`updateInstanceAttributes`. -/
structure InstanceRecord where
  transform : ℚ × ℚ × ℚ × ℚ
  color : ℚ × ℚ × ℚ × ℚ
deriving DecidableEq

/-- The `setXYZW` writes of `updateInstanceAttributes` for particle `i`. -/
def recordOf (p : UIParticle) : InstanceRecord where
  transform := (p.position.x, p.position.y, p.rotation, p.scale)
  color := (p.color.r, p.color.g, p.color.b, p.opacity)

/-- The attribute-write loop: record `i` of the buffer is overwritten
with the data of particle `i`, for `i < particles.length`; the rest of
the fixed-capacity buffer is left as it was. -/
def writeRecords : List InstanceRecord → List UIParticle → List InstanceRecord
  | buf, [] => buf
  | [], _ => []
  | _ :: buf, p :: ps => recordOf p :: writeRecords buf ps

/-- `UIParticleSystem.updateInstanceAttributes`: rewrite the first
`particles.length` records of the instance buffer and set
`instancedGeometry.instanceCount` to `particles.length`. -/
def updateInstanceAttributes (buf : List InstanceRecord)
    (particles : List UIParticle) : List InstanceRecord × ℕ :=
  (writeRecords buf particles, particles.length)

/-- Immutable configuration of `UIUniformInTimeEmitter`. -/
structure EmitterConfig where
  infinite : Bool
  spawnAmount : ℚ
  playbackDuration : ℚ
deriving DecidableEq

/-- Mutable state of `UIUniformInTimeEmitter`: `isPlaying`, the current
cycle time, and the number of particles spawned up to the last update. -/
structure EmitterState where
  isPlaying : Bool
  currentTime : ℚ
  lastTimeParticleAmount : ℤ
deriving DecidableEq

/-- The state produced by `play()` on a stopped emitter (and by
`resetSpawn`): playing with both counters cleared. -/
def playingStart : EmitterState where
  isPlaying := true
  currentTime := 0
  lastTimeParticleAmount := 0

/-- `expectedCount = Math.floor(currentTime / duration * totalAmount)`
from `UIUniformInTimeEmitter.render`. -/
def expectedAt (totalAmount duration currentTime : ℚ) : ℤ :=
  ⌊currentTime / duration * totalAmount⌋

/-- `step = duration / Math.max(1, totalAmount - 1)` from
`UIUniformInTimeEmitter.render`: the nominal inter-particle interval. -/
def stepSize (totalAmount duration : ℚ) : ℚ :=
  duration / max 1 (totalAmount - 1)

/-- The arguments of the spawn loop of `UIUniformInTimeEmitter.render`:
for `i = 1 .. countToSpawn` (with
`countToSpawn = expectedCount - lastAmount`), the call
`spawn(currentTime - (lastAmount + i) * step)`.  The `List.range` index
runs over `0 .. countToSpawn - 1`, hence the `+ 1`. -/
def offsetsList (totalAmount duration currentTime : ℚ) (lastAmount : ℤ) :
    List ℚ :=
  (List.range (expectedAt totalAmount duration currentTime - lastAmount).toNat).map
    fun (i : ℕ) => currentTime -
      ((lastAmount : ℚ) + (i : ℚ) + 1) * stepSize totalAmount duration

/-- `UIUniformInTimeEmitter.render(renderer, deltaTime)`, returning the
successor state together with the list of `elapsedTime` arguments passed
to the abstract `spawn`, in call order.  Mirrors the source: do nothing
unless playing; advance `currentTime`; for an infinite emitter reaching
the duration, reset both counters (`resetSpawn`), otherwise clamp
`currentTime` to the duration; spawn
`expectedCount - lastTimeParticleAmount` times with the offsets of
`offsetsList` (the loop reads `lastTimeParticleAmount` before it is
overwritten with `expectedCount`); finally a non-infinite emitter that
reached the duration calls `stop()` (which also runs `resetSpawn`,
zeroing both counters). -/
def emitterRender (cfg : EmitterConfig) (s : EmitterState) (deltaTime : ℚ) :
    EmitterState × List ℚ :=
  if s.isPlaying = true then
    let time0 := s.currentTime + deltaTime
    let timeAndLast : ℚ × ℤ :=
      if cfg.infinite = true then
        if cfg.playbackDuration ≤ time0 then (0, 0)
        else (time0, s.lastTimeParticleAmount)
      else (min time0 cfg.playbackDuration, s.lastTimeParticleAmount)
    let expectedCount : ℤ :=
      expectedAt cfg.spawnAmount cfg.playbackDuration timeAndLast.1
    let offsets : List ℚ :=
      offsetsList cfg.spawnAmount cfg.playbackDuration timeAndLast.1 timeAndLast.2
    if cfg.infinite = false ∧ cfg.playbackDuration ≤ timeAndLast.1 then
      (⟨false, 0, 0⟩, offsets)
    else
      (⟨true, timeAndLast.1, expectedCount⟩, offsets)
  else (s, [])

/-- Ticking an emitter through a whole list of per-frame `deltaTime`
values, accumulating the total number of `spawn` calls. -/
def runEmitter (cfg : EmitterConfig) : EmitterState × ℕ → List ℚ → EmitterState × ℕ
  | sn, [] => sn
  | (s, n), dt :: rest =>
    let r := emitterRender cfg s dt
    runEmitter cfg (r.1, n + r.2.length) rest

/-- `MathUtils.randFloat(low, high) = low + Math.random() * (high - low)`
from three.js, with the uniform draw `r ∈ [0,1)` made explicit. -/
def randFloat (low high r : ℚ) : ℚ := low + r * (high - low)

/-- A property declared as `UIRange | number` in the emitter options. -/
inductive UIRangeOrNumber where
  | num (value : ℚ)
  | range (min max : ℚ)
deriving DecidableEq

/-- The `typeof value === "number" ? value : randFloat(min, max)`
dispatch used throughout `UIRectangleEmitter.spawn`: a fixed value is
returned unchanged (no random draw is consumed), a range is sampled. -/
def resolveRange (v : UIRangeOrNumber) (r : ℚ) : ℚ :=
  match v with
  | .num value => value
  | .range lo hi => randFloat lo hi r

/-- `UIRangeVector`: independent per-axis bounds. -/
structure UIRangeVector where
  min : Vec2
  max : Vec2
deriving DecidableEq

/-- `UIRangeRadial`: magnitude and angle bounds (angle in degrees). -/
structure UIRangeRadial where
  powerMin : ℚ
  powerMax : ℚ
  angleMin : ℚ
  angleMax : ℚ
deriving DecidableEq

/-- `UIRangeColor`: independent per-channel bounds. -/
structure UIRangeColorSpec where
  rMin : ℚ
  rMax : ℚ
  gMin : ℚ
  gMax : ℚ
  bMin : ℚ
  bMax : ℚ
deriving DecidableEq

/-- The position sampling of `UIRectangleEmitter.spawn` for a
`UIRangeVector`: the emitter anchor plus an independent `randFloat` per
axis. -/
def samplePosition (ex ey : ℚ) (pos : UIRangeVector) (rx ry : ℚ) : Vec2 :=
  ⟨ex + randFloat pos.min.x pos.max.x rx, ey + randFloat pos.min.y pos.max.y ry⟩

/-- The velocity sampling of `UIRectangleEmitter.spawn` before the
degree-to-radian and polar-to-cartesian conversion: one independent
`randFloat` for the power and one for the angle. -/
def sampleRadial (v : UIRangeRadial) (rAngle rPower : ℚ) : ℚ × ℚ :=
  (randFloat v.powerMin v.powerMax rPower, randFloat v.angleMin v.angleMax rAngle)

/-- The per-channel color sampling of `UIRectangleEmitter.spawn` for a
`UIRangeColor` entry: one independent `randFloat` per RGB channel. -/
def sampleColorRange (c : UIRangeColorSpec) (r1 r2 r3 : ℚ) : Color :=
  ⟨randFloat c.rMin c.rMax r1, randFloat c.gMin c.gMax r2,
   randFloat c.bMin c.bMax r3⟩

/-- A `colorOverTime` entry: `UIRangeColor | UIRange | number` (a packed
hex color, a per-channel range, or a grayscale range). -/
inductive UIRangeColorOrNumber where
  | num (hex : ℕ)
  | colorRange (c : UIRangeColorSpec)
  | grayRange (min max : ℚ)
deriving DecidableEq

/-- The three curve options of `UIRectangleEmitterParticleOptions` that
can be omitted (TypeScript `Partial`): `none` models an absent field. -/
structure RectangleCurveOptions where
  scaleOverTime : Option (List UIRangeOrNumber)
  colorOverTime : Option (List UIRangeColorOrNumber)
  opacityOverTime : Option (List UIRangeOrNumber)
deriving DecidableEq

/-- The three curve fields as stored on the constructed emitter. -/
structure RectangleCurveConfig where
  scaleOverTime : List UIRangeOrNumber
  colorOverTime : List UIRangeColorOrNumber
  opacityOverTime : List UIRangeOrNumber
deriving DecidableEq

/-- The curve-field resolution of the `UIRectangleEmitter` constructor:
`this.scaleOverTime = particleOptions.scaleOverTime ?? [1]`,
`this.colorOverTime = particleOptions.colorOverTime ?? [0xffffff]`,
`this.opacityOverTime = particleOptions.opacityOverTime ?? [1]`.
No other processing or validation of the curves takes place. -/
def resolveCurveOptions (o : RectangleCurveOptions) : RectangleCurveConfig where
  scaleOverTime := o.scaleOverTime.getD [.num 1]
  colorOverTime := o.colorOverTime.getD [.num 0xffffff]
  opacityOverTime := o.opacityOverTime.getD [.num 1]

/-! ## Shared helper lemmas -/

/-- Evaluate the floor of a concrete rational from two linear bounds. -/
lemma floor_eval (a : ℚ) (z : ℤ) (h1 : (z : ℚ) ≤ a) (h2 : a < z + 1) :
    (⌊a⌋ : ℤ) = z := by
  rw [Int.floor_eq_iff]
  exact ⟨h1, by exact_mod_cast h2⟩

lemma getD_map_r : ∀ (cs : List Color) (i : ℕ),
    (cs.map Color.r).getD i 0 = (cs.getD i ⟨0, 0, 0⟩).r
  | [], _ => rfl
  | _ :: _, 0 => rfl
  | _ :: cs, i + 1 => getD_map_r cs i

lemma getD_map_g : ∀ (cs : List Color) (i : ℕ),
    (cs.map Color.g).getD i 0 = (cs.getD i ⟨0, 0, 0⟩).g
  | [], _ => rfl
  | _ :: _, 0 => rfl
  | _ :: cs, i + 1 => getD_map_g cs i

lemma getD_map_b : ∀ (cs : List Color) (i : ℕ),
    (cs.map Color.b).getD i 0 = (cs.getD i ⟨0, 0, 0⟩).b
  | [], _ => rfl
  | _ :: _, 0 => rfl
  | _ :: cs, i + 1 => getD_map_b cs i

/-- The age written by `stepParticle`, the same in both branches. -/
lemma stepParticle_lifeTime (g : Vec2) (dt : ℚ) (p : UIParticle) :
    (stepParticle g dt p).lifeTime = p.lifeTime + p.lifeTimeFactor * dt := by
  simp only [stepParticle]
  split <;> rfl

/-- `stepParticle` never changes the lifetime reciprocal. -/
lemma stepParticle_lifeTimeFactor (g : Vec2) (dt : ℚ) (p : UIParticle) :
    (stepParticle g dt p).lifeTimeFactor = p.lifeTimeFactor := by
  simp only [stepParticle]
  split <;> rfl

/-- The death test of `updateParticle` in terms of the incoming state. -/
lemma updateParticle_eq_none_iff (g : Vec2) (p : UIParticle) (dt : ℚ) :
    updateParticle g p dt = none ↔ 1 < p.lifeTime + p.lifeTimeFactor * dt := by
  simp only [updateParticle, stepParticle_lifeTime]
  split
  · next h => simpa using h
  · next h => simpa using not_lt.mp h

/-- The survivor returned by `updateParticle` is the stepped particle. -/
lemma updateParticle_eq_some_iff (g : Vec2) (p : UIParticle) (dt : ℚ)
    (h : p.lifeTime + p.lifeTimeFactor * dt ≤ 1) :
    updateParticle g p dt = some (stepParticle g dt p) := by
  simp only [updateParticle, stepParticle_lifeTime]
  rw [if_neg (by exact not_lt.mpr h)]

/-- Ages accumulate additively: a particle with nonnegative lifetime
reciprocal survives a nonnegative `deltaTime` sequence exactly when the
age it would accumulate over the whole sequence stays within 1. -/
lemma advanceThrough_isSome_iff (g : Vec2) :
    ∀ (dts : List ℚ) (p : UIParticle), (∀ d ∈ dts, 0 ≤ d) →
      0 ≤ p.lifeTimeFactor → p.lifeTime ≤ 1 →
      ((advanceThrough g p dts).isSome = true ↔
        p.lifeTime + p.lifeTimeFactor * dts.sum ≤ 1) := by
  intro dts
  induction dts with
  | nil =>
    intro p _ _ hage
    simp only [advanceThrough, List.sum_nil, mul_zero, add_zero, Option.isSome_some]
    exact iff_of_true trivial hage
  | cons d rest ih =>
    intro p hd hfac hage
    have hdrest : ∀ x ∈ rest, 0 ≤ x := fun x hx => hd x (List.mem_cons_of_mem d hx)
    have hrest_sum : 0 ≤ rest.sum := List.sum_nonneg hdrest
    by_cases hdeath : 1 < p.lifeTime + p.lifeTimeFactor * d
    · have hnone : updateParticle g p d = none :=
        (updateParticle_eq_none_iff g p d).mpr hdeath
      simp only [advanceThrough, hnone]
      have : ¬(p.lifeTime + p.lifeTimeFactor * (d :: rest).sum ≤ 1) := by
        rw [List.sum_cons]
        nlinarith [mul_nonneg hfac hrest_sum]
      simpa using this
    · push_neg at hdeath
      have hsome : updateParticle g p d = some (stepParticle g d p) :=
        updateParticle_eq_some_iff g p d hdeath
      simp only [advanceThrough, hsome]
      have h1 := ih (stepParticle g d p) hdrest
        (by rw [stepParticle_lifeTimeFactor]; exact hfac)
        (by rw [stepParticle_lifeTime]; exact hdeath)
      rw [h1, stepParticle_lifeTime, stepParticle_lifeTimeFactor, List.sum_cons]
      constructor
      · intro h; nlinarith
      · intro h; nlinarith

/-! ## Concrete fixtures used by witnesses and counterexamples -/

/-- The default gravity of `UIParticleSystem`. -/
def defaultGravity : Vec2 := ⟨0, -1024⟩

/-- A freshly spawned particle whose `lifeTimeFactor` (`inverseLifetime`)
is `1/2`, i.e. a 2-second lifetime. -/
def halfLifeParticle : UIParticle where
  lifeTime := 0
  lifeTimeFactor := 1/2
  position := ⟨0, 0⟩
  rotation := 0
  scale := 1
  scaleOverTime := [1]
  opacity := 1
  opacityOverTime := [1]
  color := ⟨1, 1, 1⟩
  colorOverTime := [⟨1, 1, 1⟩]
  velocity := ⟨0, 0⟩
  angularVelocity := 0

/-- Spawn options for a 4-second particle with constant curves. -/
def sampleOptions : UISystemSpawnOptions where
  lifeTime := 4
  position := ⟨0, 0⟩
  rotation := 0
  velocity := ⟨0, 0⟩
  angularVelocity := 0
  scaleOverTime := [1]
  colorOverTime := [⟨1, 1, 1⟩]
  opacityOverTime := [1]

/-- A particle system whose single slot is already taken. -/
def fullSystem : UIParticleSystemState := ⟨1, defaultGravity, [halfLifeParticle]⟩

/-- An empty particle system with room for four particles. -/
def roomySystem : UIParticleSystemState := ⟨4, defaultGravity, []⟩

/-! ## Claim C3 — curve evaluation -/

/-- Claim C3: for a one-point curve, evaluation returns the single value
for every `t`; in general `lerpArray` computes exactly the
`exact/lo/hi/frac` formula of the specification; `evaluate(curve, 0)`
is `curve[0]`; on the curve `[1, 2, 1]` evaluation yields `2` at
`t = 1/2` and `3/2` at `t = 1/4`; and color curves apply the same
interpolation to each channel independently. -/
theorem curve_evaluator_correct :
    (∀ v t : ℚ, lerpArray t [v] = v) ∧
    (∀ c : List ℚ, c ≠ [] → ∀ t : ℚ, lerpArray t c = evaluateSpec c t) ∧
    (∀ c : List ℚ, c ≠ [] → lerpArray 0 c = c.getD 0 0) ∧
    lerpArray (1/2) [1, 2, 1] = 2 ∧
    lerpArray (1/4) [1, 2, 1] = 3/2 ∧
    (∀ (cs : List Color) (t : ℚ),
      lerpColorArray t cs =
        ⟨lerpArray t (cs.map Color.r), lerpArray t (cs.map Color.g),
         lerpArray t (cs.map Color.b)⟩) := by
  refine ⟨?_, ?_, ?_, ?_, ?_, ?_⟩
  · intro v t
    simp [lerpArray, lerp]
  · intro c hc t
    match c, hc with
    | [v], _ =>
      simp [lerpArray, evaluateSpec, lerp]
    | a :: b :: tl, _ =>
      have hlen : (a :: b :: tl).length ≠ 1 := by simp
      have hcast : ((((a :: b :: tl).length : ℤ) - 1 : ℤ) : ℚ) =
          ((a :: b :: tl).length : ℚ) - 1 := by push_cast; ring
      simp only [lerpArray, evaluateSpec, if_neg hlen, hcast]
  · intro c hc
    match c, hc with
    | a :: tl, _ =>
      simp [lerpArray, lerp]
  · have h : (⌊((((3:ℕ) : ℤ) - 1 : ℤ) : ℚ) * (1/2)⌋ : ℤ) = 1 := by
      apply floor_eval <;> norm_num
    simp only [lerpArray, List.length_cons, List.length_nil, lerp]
    norm_num [h]
  · have h : (⌊((((3:ℕ) : ℤ) - 1 : ℤ) : ℚ) * (1/4)⌋ : ℤ) = 0 := by
      apply floor_eval <;> norm_num
    simp only [lerpArray, List.length_cons, List.length_nil, lerp]
    norm_num [h]
  · intro cs t
    simp only [lerpColorArray, lerpArray, List.length_map, getD_map_r,
      getD_map_g, getD_map_b]

/-- Witness for C3: the hypothesised conjuncts applied to the concrete
curve `[5, 7]`. -/
theorem curve_evaluator_correct_witness : lerpArray 0 [(5:ℚ), 7] = 5 := by
  have h := curve_evaluator_correct.2.2.1 [(5:ℚ), 7] (by simp)
  simpa using h

/-! ## Claim C2 — death threshold of the lifecycle update -/

/-- Claim C2 counterexample: a particle with `inverseLifetime = 1/2`
advanced by a single update of `dt = 2` reaches `ageFraction` exactly
`1`, which is `≥ 1`, yet `updateParticle` keeps it alive — the source
tests `lifeTime > 1`, not `>= 1`, so the claimed removal at age 1 does
not happen. -/
theorem exact_lifetime_age_not_removed :
    (1 : ℚ) ≤ halfLifeParticle.lifeTime + halfLifeParticle.lifeTimeFactor * 2 ∧
    (updateParticle defaultGravity halfLifeParticle 2).isSome = true := by
  constructor
  · norm_num [halfLifeParticle]
  · have h : updateParticle defaultGravity halfLifeParticle 2 =
        some (stepParticle defaultGravity 2 halfLifeParticle) := by
      apply updateParticle_eq_some_iff
      norm_num [halfLifeParticle]
    rw [h, Option.isSome_some]

/-- Claim C2 amended: the per-frame update first adds
`inverseLifetime * dt` to the age and the particle is then dead if and
only if the new age is strictly greater than 1; consequently a particle
with `inverseLifetime = 1/2` survives every nonnegative `dt` sequence
summing to at most 2 seconds — including exactly 2 — and dies exactly
when the summed time exceeds 2. -/
theorem death_iff_age_exceeds_one :
    (∀ (g : Vec2) (p : UIParticle) (dt : ℚ),
      updateParticle g p dt = none ↔ 1 < p.lifeTime + p.lifeTimeFactor * dt) ∧
    (∀ dts : List ℚ, (∀ d ∈ dts, 0 ≤ d) →
      ((advanceThrough defaultGravity halfLifeParticle dts).isSome = true ↔
        dts.sum ≤ 2)) := by
  constructor
  · exact updateParticle_eq_none_iff
  · intro dts hd
    have h := advanceThrough_isSome_iff defaultGravity dts halfLifeParticle hd
      (by norm_num [halfLifeParticle]) (by norm_num [halfLifeParticle])
    rw [h]
    show (0 : ℚ) + (1/2) * dts.sum ≤ 1 ↔ dts.sum ≤ 2
    constructor <;> intro hs <;> linarith

/-- Witness for C2 (amended): two one-second frames sum to exactly two
seconds, and the particle indeed survives them. -/
theorem death_iff_age_exceeds_one_witness :
    (advanceThrough defaultGravity halfLifeParticle [1, 1]).isSome = true := by
  have h := death_iff_age_exceeds_one.2 [1, 1]
    (by intro d hd; rcases List.mem_cons.mp hd with h1 | h1
        · rw [h1]; norm_num
        · rw [List.mem_singleton] at h1; rw [h1]; norm_num)
  rw [h]
  norm_num

/-! ## Claim C4 — spawning at capacity is a silent no-op -/

/-- Claim C4: when the live count has reached the configured capacity,
`spawnParticle` returns without error and without touching the system:
no particle is added and every stored particle is exactly as before. -/
theorem spawn_at_capacity_noop (sys : UIParticleSystemState)
    (options : UISystemSpawnOptions) (elapsedTime : ℚ)
    (h : sys.capacity ≤ sys.particles.length) :
    spawnParticle sys options elapsedTime = sys := by
  simp [spawnParticle, h]

/-- Witness for C4: a one-slot system holding one particle rejects a
further spawn unchanged. -/
theorem spawn_at_capacity_noop_witness :
    spawnParticle fullSystem sampleOptions 0 = fullSystem :=
  spawn_at_capacity_noop fullSystem sampleOptions 0 (by simp [fullSystem])

/-! ## Claim C8 — empty curves at configuration time -/

/-- Claim C8 counterexample: the `UIRectangleEmitter` constructor accepts
a configuration whose three curves are explicitly empty — the `?? [1]` /
`?? [0xffffff]` defaulting is the only processing, there is no
validation and no error path, and the empty curves are stored verbatim
for later runtime interpolation. -/
theorem empty_curves_accepted_at_configuration :
    resolveCurveOptions ⟨some [], some [], some []⟩ = ⟨[], [], []⟩ := rfl

/-- Claim C8 amended: the implementation does not reject empty curves at
configuration time; an explicitly supplied empty curve is stored as-is,
and the nonempty defaults `[1]`, `[0xffffff]`, `[1]` are substituted
only when the corresponding option is omitted. -/
theorem curve_defaults_only_for_omitted :
    resolveCurveOptions ⟨some [], some [], some []⟩ = ⟨[], [], []⟩ ∧
    resolveCurveOptions ⟨none, none, none⟩ =
      ⟨[.num 1], [.num 0xffffff], [.num 1]⟩ :=
  ⟨rfl, rfl⟩

/-! ## Claim C9 — range sampling stays within bounds -/

/-- The sampled value `low + r * (high - low)` with `low ≤ high` and a
draw `r ∈ [0, 1)` stays within `[low, high]`. -/
lemma randFloat_mem (lo hi r : ℚ) (hle : lo ≤ hi) (hr0 : 0 ≤ r) (hr1 : r < 1) :
    lo ≤ randFloat lo hi r ∧ randFloat lo hi r ≤ hi := by
  unfold randFloat
  constructor
  · nlinarith [mul_nonneg hr0 (sub_nonneg.mpr hle)]
  · nlinarith [mul_le_of_le_one_left (sub_nonneg.mpr hle) (le_of_lt hr1)]

/-- Claim C9: for every scalar range with `min ≤ max` and every uniform
draw `r ∈ [0, 1)` the sample lies within `[min, max]`; a degenerate
range `min = max` returns exactly that value; a fixed (non-range) value
is returned unchanged; and the same bounds hold independently for each
component of vector (position), radial (velocity power/angle) and color
(per-channel) ranges. -/
theorem range_sampler_within_bounds :
    (∀ lo hi r : ℚ, lo ≤ hi → 0 ≤ r → r < 1 →
      lo ≤ randFloat lo hi r ∧ randFloat lo hi r ≤ hi) ∧
    (∀ x r : ℚ, randFloat x x r = x) ∧
    (∀ x r : ℚ, resolveRange (.num x) r = x) ∧
    (∀ (ex ey : ℚ) (pos : UIRangeVector) (rx ry : ℚ),
      pos.min.x ≤ pos.max.x → pos.min.y ≤ pos.max.y →
      0 ≤ rx → rx < 1 → 0 ≤ ry → ry < 1 →
      ex + pos.min.x ≤ (samplePosition ex ey pos rx ry).x ∧
      (samplePosition ex ey pos rx ry).x ≤ ex + pos.max.x ∧
      ey + pos.min.y ≤ (samplePosition ex ey pos rx ry).y ∧
      (samplePosition ex ey pos rx ry).y ≤ ey + pos.max.y) ∧
    (∀ (v : UIRangeRadial) (ra rp : ℚ),
      v.powerMin ≤ v.powerMax → v.angleMin ≤ v.angleMax →
      0 ≤ ra → ra < 1 → 0 ≤ rp → rp < 1 →
      v.powerMin ≤ (sampleRadial v ra rp).1 ∧
      (sampleRadial v ra rp).1 ≤ v.powerMax ∧
      v.angleMin ≤ (sampleRadial v ra rp).2 ∧
      (sampleRadial v ra rp).2 ≤ v.angleMax) ∧
    (∀ (c : UIRangeColorSpec) (r1 r2 r3 : ℚ),
      c.rMin ≤ c.rMax → c.gMin ≤ c.gMax → c.bMin ≤ c.bMax →
      0 ≤ r1 → r1 < 1 → 0 ≤ r2 → r2 < 1 → 0 ≤ r3 → r3 < 1 →
      c.rMin ≤ (sampleColorRange c r1 r2 r3).r ∧
      (sampleColorRange c r1 r2 r3).r ≤ c.rMax ∧
      c.gMin ≤ (sampleColorRange c r1 r2 r3).g ∧
      (sampleColorRange c r1 r2 r3).g ≤ c.gMax ∧
      c.bMin ≤ (sampleColorRange c r1 r2 r3).b ∧
      (sampleColorRange c r1 r2 r3).b ≤ c.bMax) ∧
    (∀ (c : UIRangeColorSpec) (r1 r2 r3 : ℚ),
      c.rMin = c.rMax → sampleColorRange c r1 r2 r3 = ⟨c.rMin,
        randFloat c.gMin c.gMax r2, randFloat c.bMin c.bMax r3⟩) := by
  refine ⟨randFloat_mem, ?_, ?_, ?_, ?_, ?_, ?_⟩
  · intro x r
    unfold randFloat
    ring
  · intro x r
    rfl
  · intro ex ey pos rx ry hx hy hrx0 hrx1 hry0 hry1
    obtain ⟨h1, h2⟩ := randFloat_mem pos.min.x pos.max.x rx hx hrx0 hrx1
    obtain ⟨h3, h4⟩ := randFloat_mem pos.min.y pos.max.y ry hy hry0 hry1
    exact ⟨by simpa [samplePosition] using by linarith,
      by simpa [samplePosition] using by linarith,
      by simpa [samplePosition] using by linarith,
      by simpa [samplePosition] using by linarith⟩
  · intro v ra rp hp ha hra0 hra1 hrp0 hrp1
    obtain ⟨h1, h2⟩ := randFloat_mem v.powerMin v.powerMax rp hp hrp0 hrp1
    obtain ⟨h3, h4⟩ := randFloat_mem v.angleMin v.angleMax ra ha hra0 hra1
    exact ⟨h1, h2, h3, h4⟩
  · intro c r1 r2 r3 hr hg hb h10 h11 h20 h21 h30 h31
    obtain ⟨a1, a2⟩ := randFloat_mem c.rMin c.rMax r1 hr h10 h11
    obtain ⟨b1, b2⟩ := randFloat_mem c.gMin c.gMax r2 hg h20 h21
    obtain ⟨d1, d2⟩ := randFloat_mem c.bMin c.bMax r3 hb h30 h31
    exact ⟨a1, a2, b1, b2, d1, d2⟩
  · intro c r1 r2 r3 h
    unfold sampleColorRange
    rw [h]
    congr 1
    unfold randFloat
    ring

/-- Witness for C9: the unit range sampled with the draw `1/2`. -/
theorem range_sampler_within_bounds_witness :
    (0 : ℚ) ≤ randFloat 0 1 (1/2) ∧ randFloat 0 1 (1/2) ≤ 1 :=
  range_sampler_within_bounds.1 0 1 (1/2) (by norm_num) (by norm_num)
    (by norm_num)

/-! ## Claim C10 — republishing the instance buffer -/

/-- Erasing a list of elements that all satisfy `p` from a list headed by
an element that does not leaves the head in place. -/
lemma foldl_erase_cons_of_neg {α : Type} [DecidableEq α] (p : α → Bool) (x : α)
    (hx : p x = false) :
    ∀ (r l : List α), (∀ y ∈ r, p y = true) →
      r.foldl (fun acc z => acc.erase z) (x :: l) =
        x :: r.foldl (fun acc z => acc.erase z) l
  | [], _, _ => rfl
  | y :: r, l, h => by
    have hy : p y = true := h y (List.mem_cons_self y r)
    have hxy : ¬(x == y) = true := by
      simp only [beq_iff_eq]
      intro he
      rw [he, hy] at hx
      exact Bool.noConfusion hx
    simp only [List.foldl_cons]
    rw [List.erase_cons_tail hxy]
    exact foldl_erase_cons_of_neg p x hx r (l.erase y)
      (fun z hz => h z (List.mem_cons_of_mem y hz))

/-- The `indexOf`/`splice` removal loop applied to exactly the elements
satisfying `p` computes the order-preserving filter of the survivors. -/
lemma foldl_erase_filter {α : Type} [DecidableEq α] (p : α → Bool) :
    ∀ l : List α,
      (l.filter p).foldl (fun acc z => acc.erase z) l =
        l.filter fun z => !p z
  | [] => rfl
  | x :: t => by
    by_cases hx : p x = true
    · rw [List.filter_cons_of_pos hx]
      simp only [List.foldl_cons, List.erase_cons_head]
      rw [foldl_erase_filter p t, List.filter_cons_of_neg (by simp [hx])]
    · have hx' : p x = false := by
        cases h : p x
        · rfl
        · exact absurd h hx
      rw [List.filter_cons_of_neg hx]
      rw [foldl_erase_cons_of_neg p x hx' (t.filter p) t
        (fun z hz => (List.mem_filter.mp hz).2)]
      rw [foldl_erase_filter p t, List.filter_cons_of_pos (by simp [hx'])]

/-- `removeParticles` applied to the dead sub-list of a stepped particle
list yields exactly the live particles, in their original order. -/
lemma removeParticles_dead (l : List UIParticle) :
    removeParticles l (l.filter isDeadAfterStep) =
      l.filter fun p => !isDeadAfterStep p :=
  foldl_erase_filter isDeadAfterStep l

/-- The write loop never changes the size of the fixed-capacity buffer. -/
lemma writeRecords_length :
    ∀ (buf : List InstanceRecord) (ps : List UIParticle),
      (writeRecords buf ps).length = buf.length
  | buf, [] => by cases buf <;> rfl
  | [], _ :: _ => rfl
  | _ :: buf, _ :: ps => by
    simp only [writeRecords, List.length_cons, writeRecords_length buf ps]

/-- Record `i` of the rewritten buffer is the data of particle `i`. -/
lemma writeRecords_getD :
    ∀ (buf : List InstanceRecord) (ps : List UIParticle) (i : ℕ),
      i < ps.length → ps.length ≤ buf.length →
      (writeRecords buf ps).getD i ⟨(0, 0, 0, 0), (0, 0, 0, 0)⟩ =
        recordOf (ps.getD i halfLifeParticle)
  | _, [], i, hi, _ => absurd hi (by simp)
  | [], p :: ps, i, _, hlen => absurd hlen (by simp)
  | _ :: buf, p :: ps, 0, _, _ => rfl
  | _ :: buf, p :: ps, i + 1, hi, hlen =>
    writeRecords_getD buf ps i (by simpa using hi) (by simpa using hlen)

/-- Claim C10: after a frame's update and republish, removal of dead
particles preserves the relative order of the survivors (the result is
exactly the order-preserving filter of the stepped particles, hence a
sublist), `updateInstanceAttributes` writes record `i` from the `i`-th
surviving particle, leaves the buffer's fixed capacity unchanged, and
publishes an active instance count equal to the live count. -/
theorem instance_buffer_republish (gravity : Vec2) (buf : List InstanceRecord)
    (ps : List UIParticle) (dt : ℚ) (hcap : ps.length ≤ buf.length) :
    systemRenderParticles gravity ps dt =
      ((ps.map (stepParticle gravity dt)).filter fun p => !isDeadAfterStep p) ∧
    (systemRenderParticles gravity ps dt).Sublist
      (ps.map (stepParticle gravity dt)) ∧
    (updateInstanceAttributes buf (systemRenderParticles gravity ps dt)).2 =
      (systemRenderParticles gravity ps dt).length ∧
    (updateInstanceAttributes buf (systemRenderParticles gravity ps dt)).1.length =
      buf.length ∧
    (∀ i, i < (systemRenderParticles gravity ps dt).length →
      (updateInstanceAttributes buf
          (systemRenderParticles gravity ps dt)).1.getD i
          ⟨(0, 0, 0, 0), (0, 0, 0, 0)⟩ =
        recordOf ((systemRenderParticles gravity ps dt).getD i
          halfLifeParticle)) := by
  have hfilter : systemRenderParticles gravity ps dt =
      (ps.map (stepParticle gravity dt)).filter fun p => !isDeadAfterStep p := by
    unfold systemRenderParticles
    exact removeParticles_dead (ps.map (stepParticle gravity dt))
  have hsub : (systemRenderParticles gravity ps dt).Sublist
      (ps.map (stepParticle gravity dt)) := by
    rw [hfilter]
    exact List.filter_sublist (ps.map (stepParticle gravity dt))
  have hlen : (systemRenderParticles gravity ps dt).length ≤ buf.length := by
    calc (systemRenderParticles gravity ps dt).length
        ≤ (ps.map (stepParticle gravity dt)).length := hsub.length_le
      _ = ps.length := List.length_map ps (stepParticle gravity dt)
      _ ≤ buf.length := hcap
  refine ⟨hfilter, hsub, rfl, writeRecords_length buf _, ?_⟩
  intro i hi
  exact writeRecords_getD buf (systemRenderParticles gravity ps dt) i hi hlen

/-- Witness for C10: a two-slot buffer, one live and one expired
particle; the survivor keeps slot 0 and the instance count is 1. -/
theorem instance_buffer_republish_witness :
    (updateInstanceAttributes
        [⟨(0, 0, 0, 0), (0, 0, 0, 0)⟩, ⟨(0, 0, 0, 0), (0, 0, 0, 0)⟩]
        (systemRenderParticles defaultGravity
          [halfLifeParticle, { halfLifeParticle with lifeTime := 3 }] 0)).2 =
      (systemRenderParticles defaultGravity
        [halfLifeParticle, { halfLifeParticle with lifeTime := 3 }] 0).length :=
  (instance_buffer_republish defaultGravity
    [⟨(0, 0, 0, 0), (0, 0, 0, 0)⟩, ⟨(0, 0, 0, 0), (0, 0, 0, 0)⟩]
    [halfLifeParticle, { halfLifeParticle with lifeTime := 3 }] 0
    (by simp)).2.2.1

/-! ## Emitter step lemmas -/

/-- A stopped emitter ignores `render` entirely. -/
lemma emitterRender_stopped (cfg : EmitterConfig) (t : ℚ) (l : ℤ) (dt : ℚ) :
    emitterRender cfg ⟨false, t, l⟩ dt = (⟨false, t, l⟩, []) := by
  simp [emitterRender]

/-- A stopped emitter stays stopped and spawns nothing over any run. -/
lemma runEmitter_stopped (cfg : EmitterConfig) (t : ℚ) (l : ℤ) (n : ℕ) :
    ∀ dts : List ℚ, runEmitter cfg (⟨false, t, l⟩, n) dts = (⟨false, t, l⟩, n)
  | [] => rfl
  | dt :: rest => by
    simp only [runEmitter, emitterRender_stopped, List.length_nil, Nat.add_zero]
    exact runEmitter_stopped cfg t l n rest

/-- A playing non-infinite emitter whose new time stays below the
duration: clamping does nothing, the spawn loop runs, play continues. -/
lemma emitterRender_finite_below (N D t dt : ℚ) (l : ℤ) (h : t + dt < D) :
    emitterRender ⟨false, N, D⟩ ⟨true, t, l⟩ dt =
      (⟨true, t + dt, expectedAt N D (t + dt)⟩, offsetsList N D (t + dt) l) := by
  have h2 : ¬ D ≤ t + dt := not_le.mpr h
  simp [emitterRender, min_eq_left h.le, h2]

/-- A playing non-infinite emitter whose new time reaches the duration:
the time is clamped to the duration, the spawn loop runs on the clamped
time, and `stop()` resets the state. -/
lemma emitterRender_finite_cross (N D t dt : ℚ) (l : ℤ) (h : D ≤ t + dt) :
    emitterRender ⟨false, N, D⟩ ⟨true, t, l⟩ dt =
      (⟨false, 0, 0⟩, offsetsList N D D l) := by
  simp [emitterRender, min_eq_right h]

/-- A playing infinite emitter below the cycle boundary behaves like its
finite counterpart, except that it never stops. -/
lemma emitterRender_infinite_below (N D t dt : ℚ) (l : ℤ) (h : ¬ D ≤ t + dt) :
    emitterRender ⟨true, N, D⟩ ⟨true, t, l⟩ dt =
      (⟨true, t + dt, expectedAt N D (t + dt)⟩, offsetsList N D (t + dt) l) := by
  simp [emitterRender, h]

/-- A playing infinite emitter whose new time reaches the cycle boundary:
`resetSpawn` zeroes both counters before the spawn-count computation, so
the tick emits with `currentTime = 0` and `lastAmount = 0`. -/
lemma emitterRender_infinite_cross (N D t dt : ℚ) (l : ℤ) (h : D ≤ t + dt) :
    emitterRender ⟨true, N, D⟩ ⟨true, t, l⟩ dt =
      (⟨true, 0, expectedAt N D 0⟩, offsetsList N D 0 0) := by
  simp [emitterRender, h]

/-- At time zero the expected spawn count is zero. -/
lemma expectedAt_zero (N D : ℚ) : expectedAt N D 0 = 0 := by
  simp [expectedAt]

/-- The boundary tick of an infinite emitter spawns nothing. -/
lemma offsetsList_zero (N D : ℚ) : offsetsList N D 0 0 = [] := by
  simp [offsetsList, expectedAt_zero]

/-- The spawn loop runs `expectedCount - lastAmount` times. -/
lemma offsetsList_length (N D t : ℚ) (l : ℤ) :
    (offsetsList N D t l).length = (expectedAt N D t - l).toNat := by
  simp only [offsetsList, List.length_map, List.length_range]

/-- The expected count never decreases as time advances. -/
lemma expectedAt_mono (N D : ℚ) (hN : 0 ≤ N) (hD : 0 < D) {t u : ℚ}
    (h : t ≤ u) : expectedAt N D t ≤ expectedAt N D u := by
  apply Int.floor_le_floor
  gcongr

/-- The expected count is nonnegative from time zero on. -/
lemma expectedAt_nonneg (N D t : ℚ) (hN : 0 ≤ N) (hD : 0 < D) (ht : 0 ≤ t) :
    0 ≤ expectedAt N D t := by
  apply Int.floor_nonneg.mpr
  positivity

/-- Strictly inside the cycle, fewer than `totalSpawnCount` particles are
expected. -/
lemma expectedAt_lt (N : ℕ) (D t : ℚ) (hN : 0 < N) (hD : 0 < D) (ht : t < D) :
    expectedAt (N : ℚ) D t < N := by
  apply Int.floor_lt.mpr
  push_cast
  have h1 : t / D < 1 := (div_lt_one hD).mpr ht
  have h2 : (0 : ℚ) < N := by exact_mod_cast hN
  nlinarith

/-- When the clamped time equals the duration, exactly `totalSpawnCount`
particles are expected. -/
lemma expectedAt_duration (N : ℕ) (D : ℚ) (hD : 0 < D) :
    expectedAt (N : ℚ) D D = N := by
  unfold expectedAt
  rw [div_self (ne_of_gt hD), one_mul, Int.floor_natCast]

/-- Invariant run of a playing non-infinite emitter: starting inside the
cycle with `lastTimeParticleAmount` equal to the expected count at the
current time and that many spawns already accumulated, any positive tick
sequence whose total reaches the remaining duration ends with exactly
`N` accumulated spawns and a stopped, reset emitter. -/
lemma run_finite_crossing (N : ℕ) (hN : 1 ≤ N) (D : ℚ) (hD : 0 < D) :
    ∀ (dts : List ℚ) (t : ℚ), 0 ≤ t → t < D → (∀ d ∈ dts, 0 < d) →
      D ≤ t + dts.sum →
      runEmitter ⟨false, (N : ℚ), D⟩
        (⟨true, t, expectedAt (N : ℚ) D t⟩, (expectedAt (N : ℚ) D t).toNat)
        dts =
      (⟨false, 0, 0⟩, N)
  | [], t, _, htD, _, hsum => by
    exfalso
    simp only [List.sum_nil, add_zero] at hsum
    linarith
  | d :: rest, t, ht0, htD, hpos, hsum => by
    have hd0 : 0 < d := hpos d (List.mem_cons_self d rest)
    have hrestpos : ∀ x ∈ rest, 0 < x := fun x hx =>
      hpos x (List.mem_cons_of_mem d hx)
    have hNQ : (0 : ℚ) ≤ (N : ℚ) := by positivity
    have hEt0 : 0 ≤ expectedAt (N : ℚ) D t :=
      expectedAt_nonneg (N : ℚ) D t hNQ hD ht0
    have hEtN : expectedAt (N : ℚ) D t < N :=
      expectedAt_lt N D t (by omega) hD htD
    by_cases hcross : D ≤ t + d
    · simp only [runEmitter]
      rw [emitterRender_finite_cross (N : ℚ) D t d _ hcross]
      have hED : expectedAt (N : ℚ) D D = N := expectedAt_duration N D hD
      have hcount : (expectedAt (N : ℚ) D t).toNat +
          (offsetsList (N : ℚ) D D (expectedAt (N : ℚ) D t)).length = N := by
        rw [offsetsList_length, hED]
        omega
      simp only
      rw [hcount]
      exact runEmitter_stopped _ 0 0 N rest
    · push_neg at hcross
      simp only [runEmitter]
      rw [emitterRender_finite_below (N : ℚ) D t d _ hcross]
      have hEmono : expectedAt (N : ℚ) D t ≤ expectedAt (N : ℚ) D (t + d) :=
        expectedAt_mono _ _ hNQ hD (by linarith)
      have hacc : (expectedAt (N : ℚ) D t).toNat +
          (offsetsList (N : ℚ) D (t + d) (expectedAt (N : ℚ) D t)).length =
          (expectedAt (N : ℚ) D (t + d)).toNat := by
        rw [offsetsList_length]
        omega
      simp only
      rw [hacc]
      exact run_finite_crossing N hN D hD rest (t + d) (by linarith) hcross
        hrestpos (by rw [List.sum_cons] at hsum; linarith)

/-! ## Claim C1 — finite emitter totals -/

/-- Claim C1: a freshly started non-infinite emitter with
`spawnAmount = N ≥ 1` and `playbackDuration = D > 0`, ticked by any
finite sequence of positive `deltaTime` values summing to at least `D`,
performs exactly `N` `spawn` calls over the whole sequence, and from the
tick in which `currentTime` reaches `D` onwards it is in the stopped
(and reset) state. -/
theorem finite_emitter_spawns_exactly_N (N : ℕ) (hN : 1 ≤ N) (D : ℚ)
    (hD : 0 < D) (dts : List ℚ) (hpos : ∀ d ∈ dts, 0 < d)
    (hsum : D ≤ dts.sum) :
    runEmitter ⟨false, (N : ℚ), D⟩ (playingStart, 0) dts =
      (⟨false, 0, 0⟩, N) := by
  have h := run_finite_crossing N hN D hD dts 0 le_rfl hD hpos
    (by simpa using hsum)
  rw [show ((playingStart : EmitterState), (0 : ℕ)) =
      ((⟨true, 0, expectedAt (N : ℚ) D 0⟩ : EmitterState),
        (expectedAt (N : ℚ) D 0).toNat) from by rw [expectedAt_zero]; rfl]
  exact h

/-- Witness for C1: `N = 3`, `D = 1`, two half-second ticks. -/
theorem finite_emitter_spawns_exactly_N_witness :
    runEmitter ⟨false, ((3 : ℕ) : ℚ), 1⟩ (playingStart, 0) [1/2, 1/2] =
      (⟨false, 0, 0⟩, 3) := by
  have h := finite_emitter_spawns_exactly_N 3 (by norm_num) 1 (by norm_num)
    [1/2, 1/2]
    (by intro d hd
        rcases List.mem_cons.mp hd with h1 | h1
        · rw [h1]; norm_num
        · rw [List.mem_singleton] at h1; rw [h1]; norm_num)
    (by norm_num [List.sum_cons, List.sum_nil])
  exact h

/-! ## Claim C6 — infinite emitter cycle boundaries -/

/-- The expected spawn count for `N = 2`, `D = 1` half-way through. -/
lemma expectedAt_half : expectedAt 2 1 (1/2) = 1 := by
  unfold expectedAt
  apply floor_eval <;> norm_num

/-- Claim C6 counterexample: an infinite emitter with `spawnAmount = 2`,
`playbackDuration = 1`, ticked by two half-second frames — exactly one
full cycle — spawns once, not `1 * 2 = 2` times: the boundary tick
resets `currentTime` to `0` before computing the spawn count, so the
second particle of the cycle is never spawned. -/
theorem infinite_full_cycle_undercounts :
    runEmitter ⟨true, 2, 1⟩ (playingStart, 0) [1/2, 1/2] =
      (⟨true, 0, 0⟩, 1) ∧ (1 : ℕ) ≠ 1 * 2 := by
  constructor
  · have h1 := emitterRender_infinite_below 2 1 0 (1/2) 0 (by norm_num)
    norm_num [expectedAt_half] at h1
    have hlen : (offsetsList 2 1 (1/2) 0).length = 1 := by
      rw [offsetsList_length, expectedAt_half]
      rfl
    have h2 : emitterRender ⟨true, 2, 1⟩ ⟨true, 1/2, 1⟩ (1/2) =
        (⟨true, 0, 0⟩, []) := by
      rw [emitterRender_infinite_cross 2 1 (1/2) (1/2) 1 (by norm_num),
        expectedAt_zero, offsetsList_zero]
    show runEmitter ⟨true, 2, 1⟩ (⟨true, 0, 0⟩, 0) [1/2, 1/2] =
      (⟨true, 0, 0⟩, 1)
    simp only [runEmitter, h1, h2, hlen, List.length_nil]
  · norm_num

/-- Claim C6 amended: at every tick in which an infinite emitter's
`currentTime` would reach the cycle duration, the emitter resets both
`currentTime` and the per-cycle spawn counter to `0` and remains
playing, but that tick performs no `spawn` calls at all — so the
particles still pending from the finished cycle are skipped and the
cumulative count over `k` full cycles can be smaller than `k·N`. -/
theorem infinite_boundary_tick_resets_keeps_playing (cfg : EmitterConfig)
    (s : EmitterState) (dt : ℚ) (hinf : cfg.infinite = true)
    (hD : 0 < cfg.playbackDuration) (hs : s.isPlaying = true)
    (hcross : cfg.playbackDuration ≤ s.currentTime + dt) :
    emitterRender cfg s dt = (⟨true, 0, 0⟩, []) := by
  obtain ⟨inf, N, D⟩ := cfg
  obtain ⟨pl, t, l⟩ := s
  simp only at hinf hs hcross hD
  subst hinf
  subst hs
  rw [emitterRender_infinite_cross N D t dt l hcross, expectedAt_zero,
    offsetsList_zero]

/-- Witness for C6 (amended): the boundary tick of the two-particle,
one-second infinite emitter. -/
theorem infinite_boundary_tick_resets_keeps_playing_witness :
    emitterRender ⟨true, 2, 1⟩ playingStart 1 = (⟨true, 0, 0⟩, []) :=
  infinite_boundary_tick_resets_keeps_playing ⟨true, 2, 1⟩ playingStart 1
    rfl (by norm_num) rfl (by norm_num [playingStart])

/-! ## Claim C5 — the elapsed-time offsets passed to the factory -/

/-- Every offset emitted by the spawn loop with a clamped current time
`ct ≤ D` is at least `-step`: the largest target index is the expected
count, whose target time exceeds the current time by at most one
nominal interval. -/
lemma offsetsList_ge_neg_step (N : ℚ) (hN : 1 ≤ N) (D ct : ℚ) (hD : 0 < D)
    (hct : ct ≤ D) (l : ℤ) :
    ∀ o ∈ offsetsList N D ct l, -(stepSize N D) ≤ o := by
  intro o ho
  simp only [offsetsList, List.mem_map, List.mem_range] at ho
  obtain ⟨i, hi, rfl⟩ := ho
  set E : ℤ := expectedAt N D ct with hE
  set M : ℚ := max 1 (N - 1) with hM
  have hM1 : (1 : ℚ) ≤ M := le_max_left _ _
  have hM0 : (0 : ℚ) < M := lt_of_lt_of_le one_pos hM1
  have hstep : stepSize N D = D / M := rfl
  have hsteppos : 0 < D / M := div_pos hD hM0
  have h4 : l + (i : ℤ) + 1 ≤ E := by omega
  have hidx : (l : ℚ) + (i : ℚ) + 1 ≤ ((E : ℤ) : ℚ) := by exact_mod_cast h4
  have hfloor : ((E : ℤ) : ℚ) ≤ ct / D * N := Int.floor_le _
  have hMN : ct * N ≤ ct * M + D := by
    by_cases hsmall : N - 1 ≤ 1
    · have hMeq : M = 1 := by rw [hM]; exact max_eq_left hsmall
      rw [hMeq, mul_one]
      by_cases hct0 : 0 ≤ ct
      · nlinarith [mul_le_mul_of_nonneg_left hsmall hct0]
      · push_neg at hct0
        nlinarith [mul_nonpos_of_nonpos_of_nonneg hct0.le (by linarith : (0:ℚ) ≤ N - 1)]
    · push_neg at hsmall
      have hMeq : M = N - 1 := by rw [hM]; exact max_eq_right hsmall.le
      rw [hMeq]
      nlinarith
  have hkey : ((E : ℤ) : ℚ) * (D / M) ≤ ct + D / M := by
    have h1 : ((E : ℤ) : ℚ) * (D / M) ≤ (ct / D * N) * (D / M) :=
      mul_le_mul_of_nonneg_right hfloor hsteppos.le
    have h2 : (ct / D * N) * (D / M) = ct * N / M := by
      field_simp
    have h3 : ct * N / M ≤ ct + D / M := by
      rw [div_le_iff₀ hM0]
      have hexp : (ct + D / M) * M = ct * M + D := by field_simp
      rw [hexp]
      exact hMN
    calc ((E : ℤ) : ℚ) * (D / M) ≤ (ct / D * N) * (D / M) := h1
      _ = ct * N / M := h2
      _ ≤ ct + D / M := h3
  have hmul : ((l : ℚ) + (i : ℚ) + 1) * (D / M) ≤ ((E : ℤ) : ℚ) * (D / M) :=
    mul_le_mul_of_nonneg_right hidx hsteppos.le
  rw [hstep]
  linarith

/-- The single offset passed to the factory half-way through the
two-particle, one-second finite emitter's cycle. -/
lemma half_tick_offsets :
    (emitterRender ⟨false, 2, 1⟩ playingStart (1/2)).2 = [-(1/2)] := by
  show (emitterRender ⟨false, 2, 1⟩ ⟨true, 0, 0⟩ (1/2)).2 = [-(1/2)]
  have h := emitterRender_finite_below 2 1 0 (1/2) 0 (by norm_num)
  norm_num at h
  rw [h]
  simp only [offsetsList, stepSize, expectedAt_half]
  rw [show ((1 : ℤ) - 0).toNat = 1 from rfl, show List.range 1 = [0] from rfl]
  norm_num

/-- Claim C5 counterexample: the emission scheduler passes a negative
`elapsedTimeOffset` to the factory.  With `spawnAmount = 2`,
`playbackDuration = 1` and a single half-second tick of a freshly
started emitter, the one spawn of that tick receives
`currentTime - targetTime = 1/2 - 1·(1/(2-1)) = -1/2 < 0`: the expected
count uses the spacing `D/N` while the target times use `D/(N-1)`, so
the claimed invariant `offset ≥ 0` fails. -/
theorem negative_offset_passed_to_factory :
    (emitterRender ⟨false, 2, 1⟩ playingStart (1/2)).2 = [-(1/2)] ∧
    (-(1/2) : ℚ) < 0 :=
  ⟨half_tick_offsets, by norm_num⟩

/-- Claim C5 amended: every `spawn` invocation of a tick receives
exactly `currentTime - (lastTimeParticleAmount + i) * step` with
`step = playbackDuration / max(1, spawnAmount - 1)` (this is
`offsetsList` by construction), but the offset is not always
nonnegative: the guarantee that does hold, for any emitter state and any
tick, is `offset ≥ -step`. -/
theorem spawn_offsets_at_least_neg_step (N : ℚ) (hN : 1 ≤ N) (D dt : ℚ)
    (hD : 0 < D) (inf : Bool) (s : EmitterState) :
    ∀ o ∈ (emitterRender ⟨inf, N, D⟩ s dt).2, -(stepSize N D) ≤ o := by
  obtain ⟨pl, t, l⟩ := s
  cases pl with
  | false =>
    rw [emitterRender_stopped]
    intro o ho
    exact absurd ho (List.not_mem_nil o)
  | true =>
    cases inf with
    | false =>
      by_cases hcross : D ≤ t + dt
      · rw [emitterRender_finite_cross N D t dt l hcross]
        exact offsetsList_ge_neg_step N hN D D hD le_rfl l
      · push_neg at hcross
        rw [emitterRender_finite_below N D t dt l hcross]
        exact offsetsList_ge_neg_step N hN D (t + dt) hD hcross.le l
    | true =>
      by_cases hcross : D ≤ t + dt
      · rw [emitterRender_infinite_cross N D t dt l hcross]
        exact offsetsList_ge_neg_step N hN D 0 hD hD.le 0
      · rw [emitterRender_infinite_below N D t dt l hcross]
        push_neg at hcross
        exact offsetsList_ge_neg_step N hN D (t + dt) hD hcross.le l

/-- Witness for C5 (amended): the bound applied to the negative offset
actually produced half-way through the two-particle cycle. -/
theorem spawn_offsets_at_least_neg_step_witness :
    -(stepSize 2 1) ≤ (-(1/2) : ℚ) := by
  apply spawn_offsets_at_least_neg_step 2 (by norm_num) 1 (1/2) (by norm_num)
    false playingStart
  rw [half_tick_offsets]
  exact List.mem_singleton.mpr rfl

/-! ## Claim C7 — pre-aging of late-spawned particles -/

/-- Claim C7: with free capacity and a positive `elapsedTime` offset,
`spawnParticle` builds the particle at age `0` and advances it through
the lifecycle update (`updateParticle`: age, velocity, position,
rotation and curve-driven properties) by exactly that offset before
admission; when the pre-aging pushes the particle past the death
threshold the particle is discarded (`Option.toList none = []`) and
never stored. -/
theorem spawn_preages_by_offset (sys : UIParticleSystemState)
    (options : UISystemSpawnOptions) (elapsedTime : ℚ)
    (hcap : sys.particles.length < sys.capacity) (hpos : 0 < elapsedTime) :
    (mkParticle options).lifeTime = 0 ∧
    (spawnParticle sys options elapsedTime).particles =
      sys.particles ++
        (updateParticle sys.gravity (mkParticle options) elapsedTime).toList := by
  refine ⟨rfl, ?_⟩
  simp only [spawnParticle]
  rw [if_neg (by exact not_le.mpr hcap), if_neg (by exact ne_of_gt hpos)]
  cases h : updateParticle sys.gravity (mkParticle options) elapsedTime with
  | some p => simp
  | none => simp

/-- Witness for C7: a roomy system pre-ages a 4-second particle by one
second before accepting it. -/
theorem spawn_preages_by_offset_witness :
    (mkParticle sampleOptions).lifeTime = 0 ∧
    (spawnParticle roomySystem sampleOptions 1).particles =
      roomySystem.particles ++
        (updateParticle roomySystem.gravity (mkParticle sampleOptions) 1).toList :=
  spawn_preages_by_offset roomySystem sampleOptions 1
    (by norm_num [roomySystem]) (by norm_num)
